import Mathlib

/-!
Shallow embedding of the CHIP-8 emulator core (`chip8_core/src/lib.rs`).

Machine integers are modelled as `Nat` with explicit `% 2^w` where the Rust
code performs wrapping arithmetic (release semantics for the unchecked `+=`
and `-=` operators, and the explicit `wrapping_add`/`wrapping_sub` calls).
Fixed-size arrays are modelled as total functions `Nat → _`; every place the
Rust code indexes an array with a possibly out-of-range index carries an
explicit bounds guard, and a failed guard (a Rust panic) is `none`.
The thread-local random generator of the `0xCXNN` opcode is modelled as an
extra input byte `rnd` passed to `execute`/`tick`.
-/

namespace Chip8

def SCREEN_WIDTH : Nat := 64
def SCREEN_HEIGHT : Nat := 32

def RAM_SIZE : Nat := 4096
def NUM_REGS : Nat := 16
def STACK_SIZE : Nat := 16
def NUM_KEYS : Nat := 16

def FONTSET_SIZE : Nat := 80
def FONT_SIZE : Nat := 5
def FONTSET_ADDR : Nat := 0x0

def FONTSET : List Nat := [
  0xF0, 0x90, 0x90, 0x90, 0xF0,
  0x20, 0x60, 0x20, 0x20, 0x70,
  0xF0, 0x10, 0xF0, 0x80, 0xF0,
  0xF0, 0x10, 0xF0, 0x10, 0xF0,
  0x90, 0x90, 0xF0, 0x10, 0x10,
  0xF0, 0x80, 0xF0, 0x10, 0xF0,
  0xF0, 0x80, 0xF0, 0x90, 0xF0,
  0xF0, 0x10, 0x20, 0x40, 0x40,
  0xF0, 0x90, 0xF0, 0x90, 0xF0,
  0xF0, 0x90, 0xF0, 0x10, 0xF0,
  0xF0, 0x90, 0xF0, 0x90, 0x90,
  0xE0, 0x90, 0xE0, 0x90, 0xE0,
  0xF0, 0x80, 0x80, 0x80, 0xF0,
  0xE0, 0x90, 0x90, 0x90, 0xE0,
  0xF0, 0x80, 0xF0, 0x80, 0xF0,
  0xF0, 0x80, 0xF0, 0x80, 0x80]

/-- Machine state of the emulator (struct `Emu`). -/
@[ext]
structure Emu where
  pc : Nat
  ram : Nat → Nat
  screen : Nat → Bool
  v_reg : Nat → Nat
  i_reg : Nat
  sp : Nat
  stack : Nat → Nat
  keys : Nat → Bool
  dt : Nat
  st : Nat

def START_ADDR : Nat := 0x200

/-- Pointwise update of a function-modelled array. -/
def upd {α : Type} (f : Nat → α) (i : Nat) (v : α) : Nat → α :=
  fun j => if j = i then v else f j

/-- `Emu::new`: zero-initialise every field, set the program counter to the
load address, then copy `FONTSET` into the first `FONTSET_SIZE` bytes of RAM. -/
def Emu.new : Emu where
  pc := START_ADDR
  ram := fun i => if i < FONTSET_SIZE then FONTSET.getD i 0 else 0
  screen := fun _ => false
  v_reg := fun _ => 0
  i_reg := 0
  sp := 0
  stack := fun _ => 0
  keys := fun _ => false
  dt := 0
  st := 0

/-- `Emu::reset`: set the program counter to the load address and zero every
other field.  Note the Rust code assigns `[0; RAM_SIZE]` to `ram` and never
copies `FONTSET` back in. -/
def Emu.reset (_e : Emu) : Emu where
  pc := START_ADDR
  ram := fun _ => 0
  screen := fun _ => false
  v_reg := fun _ => 0
  i_reg := 0
  sp := 0
  stack := fun _ => 0
  keys := fun _ => false
  dt := 0
  st := 0

/-- `Emu::push`: store `val` at `stack[sp]` and increment `sp`.
Indexing `stack` out of range is a panic, hence `none`. -/
def Emu.push (e : Emu) (val : Nat) : Option Emu :=
  if e.sp < STACK_SIZE then
    some { e with stack := upd e.stack e.sp val, sp := e.sp + 1 }
  else none

/-- `Emu::pop`: decrement `sp` and read `stack[sp]`.  Decrementing `sp` at 0
underflows and the subsequent index is out of range, hence `none`. -/
def Emu.pop (e : Emu) : Option (Nat × Emu) :=
  if 0 < e.sp ∧ e.sp - 1 < STACK_SIZE then
    some (e.stack (e.sp - 1), { e with sp := e.sp - 1 })
  else none

/-- `Emu::fetch`: big-endian combine the two RAM bytes at the program counter
and advance the program counter by 2. -/
def Emu.fetch (e : Emu) : Option (Nat × Emu) :=
  let i2 := (e.pc + 1) % 65536
  if e.pc < RAM_SIZE ∧ i2 < RAM_SIZE then
    some ((e.ram e.pc <<< 8) ||| e.ram i2, { e with pc := (e.pc + 2) % 65536 })
  else none

/-- First decoded nibble: `(op & 0xF000) >> 12`. -/
def digit1 (op : Nat) : Nat := (op &&& 0xF000) >>> 12
/-- Second decoded nibble: `(op & 0x0F00) >> 8`. -/
def digit2 (op : Nat) : Nat := (op &&& 0x0F00) >>> 8
/-- Third decoded nibble: `(op & 0x00F0) >> 4`. -/
def digit3 (op : Nat) : Nat := (op &&& 0x00F0) >>> 4
/-- Fourth decoded nibble: `op & 0x000F`. -/
def digit4 (op : Nat) : Nat := op &&& 0x000F

/-- Whether sprite row byte `pixels` has its bit for column `xl` set:
`(pixels & (0b1000_0000 >> x_line)) != 0`. -/
def sprBit (pixels xl : Nat) : Bool := pixels &&& (0x80 >>> xl) != 0

/-- Screen index of the sprite pixel at column offset `xl` of row offset `yl`
drawn at base coordinates `(xc, yc)`:
`(xc + xl) % 64 + 64 * ((yc + yl) % 32)`. -/
def pixIdx (xc yc xl yl : Nat) : Nat :=
  (xc + xl) % SCREEN_WIDTH + SCREEN_WIDTH * ((yc + yl) % SCREEN_HEIGHT)

/-- Inner loop of the `0xDXYN` draw opcode over the given column offsets
(the Rust code iterates `x_line in 0..8`): flip the target pixel for every
set sprite bit, accumulating into `flipped` the pre-flip pixel value. -/
def drawBits (scr : Nat → Bool) (fl : Bool) (pixels xc yc yl : Nat) :
    List Nat → ((Nat → Bool) × Bool)
  | [] => (scr, fl)
  | xl :: rest =>
    if sprBit pixels xl then
      let idx := pixIdx xc yc xl yl
      drawBits (upd scr idx (xor (scr idx) true)) (fl || scr idx) pixels xc yc yl rest
    else
      drawBits scr fl pixels xc yc yl rest

/-- Outer loop of the `0xDXYN` draw opcode over the given row offsets
(the Rust code iterates `y_line in 0..num_rows`): read the sprite row byte at
`i_reg + y_line` (out-of-range RAM index is a panic, hence `none`) and run the
inner loop over columns `0..8`. -/
def drawRows (ram : Nat → Nat) (ireg xc yc : Nat) (scr : Nat → Bool) (fl : Bool) :
    List Nat → Option ((Nat → Bool) × Bool)
  | [] => some (scr, fl)
  | yl :: rest =>
    let addr := (ireg + yl) % 65536
    if addr < RAM_SIZE then
      let p := drawBits scr fl (ram addr) xc yc yl (List.range 8)
      drawRows ram ireg xc yc p.1 p.2 rest
    else none

/-- Loop of the `0xFX55` opcode: `ram[start + i] = v_reg[i]` for the given
register indices (the Rust code iterates `i in 0..x`). -/
def storeRegs (ram : Nat → Nat) (vreg : Nat → Nat) (start : Nat) :
    List Nat → Option (Nat → Nat)
  | [] => some ram
  | i :: rest =>
    if start + i < RAM_SIZE then
      storeRegs (upd ram (start + i) (vreg i)) vreg start rest
    else none

/-- Loop of the `0xFX65` opcode: `v_reg[i] = ram[start + i]` for the given
register indices (the Rust code iterates `i in 0..x`). -/
def loadRegs (ram : Nat → Nat) (vreg : Nat → Nat) (start : Nat) :
    List Nat → Option (Nat → Nat)
  | [] => some vreg
  | i :: rest =>
    if start + i < RAM_SIZE then
      loadRegs ram (upd vreg i (ram (start + i))) start rest
    else none

/-- Key scan of the `0xFX0A` opcode: fold of
`for i in 0..NUM_KEYS { if keys[i] { key_no = i } }` starting from the
sentinel `NUM_KEYS`. -/
def keyScan (keys : Nat → Bool) : Nat :=
  (List.range NUM_KEYS).foldl (fun acc i => if keys i then i else acc) NUM_KEYS

/-- `Emu::execute`: ordered dispatch over the four decoded nibbles, one
branch per arm of the Rust `match`, in source order.  `rnd` is the byte the
Rust code draws from `rand::thread_rng()` in the `0xCXNN` arm. -/
def execute (e : Emu) (op rnd : Nat) : Option Emu :=
  let d1 := digit1 op
  let d2 := digit2 op
  let d3 := digit3 op
  let d4 := digit4 op
  -- 0x0000: NOP
  if d1 = 0 ∧ d2 = 0 ∧ d3 = 0 ∧ d4 = 0 then some e
  -- 0x00E0: CLS
  else if d1 = 0 ∧ d2 = 0 ∧ d3 = 0xE ∧ d4 = 0 then
    some { e with screen := fun _ => false }
  -- 0x00EE: RET
  else if d1 = 0 ∧ d2 = 0 ∧ d3 = 0xE ∧ d4 = 0xE then
    match e.pop with
    | some (ret_addr, e₁) => some { e₁ with pc := ret_addr }
    | none => none
  -- 0x1NNN: JP addr
  else if d1 = 1 then
    some { e with pc := op &&& 0x0FFF }
  -- 0x2NNN: CALL addr
  else if d1 = 2 then
    match e.push e.pc with
    | some e₁ => some { e₁ with pc := op &&& 0x0FFF }
    | none => none
  -- 0x3XNN: SE Vx, byte
  else if d1 = 3 then
    if e.v_reg d2 = op &&& 0x00FF then some { e with pc := (e.pc + 2) % 65536 }
    else some e
  -- 0x4XNN: SNE Vx, byte
  else if d1 = 4 then
    if e.v_reg d2 ≠ op &&& 0x00FF then some { e with pc := (e.pc + 2) % 65536 }
    else some e
  -- 0x5XY0: SE Vx, Vy — note the Rust code binds BOTH x and y to digit2
  else if d1 = 5 then
    if e.v_reg d2 = e.v_reg d2 then some { e with pc := (e.pc + 2) % 65536 }
    else some e
  -- 0x6XNN: LD Vx, byte
  else if d1 = 6 then
    some { e with v_reg := upd e.v_reg d2 (op &&& 0x00FF) }
  -- 0x7XNN: ADD Vx, byte (wrapping, no flag)
  else if d1 = 7 then
    some { e with v_reg := upd e.v_reg d2 ((e.v_reg d2 + (op &&& 0x00FF)) % 256) }
  -- 0x8XY0: LD Vx, Vy
  else if d1 = 8 ∧ d4 = 0 then
    some { e with v_reg := upd e.v_reg d2 (e.v_reg d3) }
  -- 0x8XY1: OR Vx, Vy
  else if d1 = 8 ∧ d4 = 1 then
    some { e with v_reg := upd e.v_reg d2 (e.v_reg d2 ||| e.v_reg d3) }
  -- 0x8XY2: AND Vx, Vy
  else if d1 = 8 ∧ d4 = 2 then
    some { e with v_reg := upd e.v_reg d2 (e.v_reg d2 &&& e.v_reg d3) }
  -- 0x8XY3: XOR Vx, Vy
  else if d1 = 8 ∧ d4 = 3 then
    some { e with v_reg := upd e.v_reg d2 (e.v_reg d2 ^^^ e.v_reg d3) }
  -- 0x8XY4: ADD Vx, Vy with carry flag
  else if d1 = 8 ∧ d4 = 4 then
    some { e with v_reg := (upd (upd e.v_reg d2 ((e.v_reg d2 + e.v_reg d3) % 256)) 0xF
      (if 256 ≤ e.v_reg d2 + e.v_reg d3 then 1 else 0)) }
  -- 0x8XY5: SUB Vx, Vy with not-borrow flag
  else if d1 = 8 ∧ d4 = 5 then
    some { e with v_reg := (upd (upd e.v_reg d2 ((e.v_reg d2 + 256 - e.v_reg d3) % 256)) 0xF
      (if e.v_reg d3 < e.v_reg d2 then 1 else 0)) }
  -- 0x8XY6: SHR Vx
  else if d1 = 8 ∧ d4 = 6 then
    some { e with v_reg := (upd (upd e.v_reg d2 (e.v_reg d2 >>> 1)) 0xF
      (e.v_reg d2 &&& 0x01)) }
  -- 0x8XY7: SUBN Vx, Vy
  else if d1 = 8 ∧ d4 = 7 then
    some { e with v_reg := (upd (upd e.v_reg d2 ((e.v_reg d3 + 256 - e.v_reg d2) % 256)) 0xF
      (if e.v_reg d2 < e.v_reg d3 then 1 else 0)) }
  -- 0x8XYE: SHL Vx
  else if d1 = 8 ∧ d4 = 0xE then
    some { e with v_reg := (upd (upd e.v_reg d2 ((e.v_reg d2 <<< 1) % 256)) 0xF
      ((e.v_reg d2 >>> 7) &&& 0x01)) }
  -- 0x9XY0: SNE Vx, Vy
  else if d1 = 9 ∧ d4 = 0 then
    if e.v_reg d2 ≠ e.v_reg d3 then some { e with pc := (e.pc + 2) % 65536 }
    else some e
  -- 0xANNN: LD I, addr
  else if d1 = 0xA then
    some { e with i_reg := op &&& 0x0FFF }
  -- 0xBNNN: JP V0, addr
  else if d1 = 0xB then
    some { e with pc := (e.v_reg 0 + (op &&& 0x0FFF)) % 65536 }
  -- 0xCXNN: RND Vx, byte
  else if d1 = 0xC then
    some { e with v_reg := upd e.v_reg d2 ((rnd % 256) &&& (op &&& 0x00FF)) }
  -- 0xDXYN: DRW Vx, Vy, nibble
  else if d1 = 0xD then
    match drawRows e.ram e.i_reg (e.v_reg d2) (e.v_reg d3) e.screen false (List.range d4) with
    | some (scr, flipped) =>
      some { e with screen := scr, v_reg := upd e.v_reg 0xF (if flipped then 1 else 0) }
    | none => none
  -- 0xEX9E: SKP Vx
  else if d1 = 0xE ∧ d3 = 0x9 ∧ d4 = 0xE then
    if e.v_reg d2 < NUM_KEYS then
      if e.keys (e.v_reg d2) then some { e with pc := (e.pc + 2) % 65536 }
      else some e
    else none
  -- 0xEXA1: SKNP Vx
  else if d1 = 0xE ∧ d3 = 0xA ∧ d4 = 0x1 then
    if e.v_reg d2 < NUM_KEYS then
      if !(e.keys (e.v_reg d2)) then some { e with pc := (e.pc + 2) % 65536 }
      else some e
    else none
  -- 0xFX07: LD Vx, DT
  else if d1 = 0xF ∧ d3 = 0x0 ∧ d4 = 0x7 then
    some { e with v_reg := upd e.v_reg d2 e.dt }
  -- 0xFX0A: LD Vx, K (wait for key)
  else if d1 = 0xF ∧ d3 = 0x0 ∧ d4 = 0xA then
    let key_no := keyScan e.keys
    if key_no = NUM_KEYS then
      some { e with pc := (e.pc + 65536 - 2) % 65536 }
    else
      some { e with v_reg := upd e.v_reg d2 key_no }
  -- 0xFX15: LD DT, Vx
  else if d1 = 0xF ∧ d3 = 0x1 ∧ d4 = 0x5 then
    some { e with dt := e.v_reg d2 }
  -- 0xFX18: LD ST, Vx
  else if d1 = 0xF ∧ d3 = 0x1 ∧ d4 = 0x8 then
    some { e with st := e.v_reg d2 }
  -- 0xFX1E: ADD I, Vx (wrapping)
  else if d1 = 0xF ∧ d3 = 0x1 ∧ d4 = 0xE then
    some { e with i_reg := (e.i_reg + e.v_reg d2) % 65536 }
  -- 0xFX29: LD F, Vx
  else if d1 = 0xF ∧ d3 = 0x2 ∧ d4 = 0x9 then
    some { e with i_reg := FONTSET_ADDR + FONT_SIZE * e.v_reg d2 }
  -- 0xFX33: LD B, Vx — note the Rust code decomposes the INDEX x, not v_reg[x]
  else if d1 = 0xF ∧ d3 = 0x3 ∧ d4 = 0x3 then
    if e.i_reg + 2 < RAM_SIZE then
      some { e with ram := (upd (upd (upd e.ram e.i_reg (d2 / 100)) (e.i_reg + 1)
        (d2 % 100 / 10)) (e.i_reg + 2) (d2 % 10)) }
    else none
  -- 0xFX55: LD [I], Vx
  else if d1 = 0xF ∧ d3 = 0x5 ∧ d4 = 0x5 then
    match storeRegs e.ram e.v_reg e.i_reg (List.range d2) with
    | some ram => some { e with ram := ram }
    | none => none
  -- 0xFX65: LD Vx, [I]
  else if d1 = 0xF ∧ d3 = 0x6 ∧ d4 = 0x5 then
    match loadRegs e.ram e.v_reg e.i_reg (List.range d2) with
    | some vreg => some { e with v_reg := vreg }
    | none => none
  -- any other pattern: unimplemented!(...) panic
  else none

/-- `Emu::tick`: one fetch-decode-execute cycle. -/
def tick (e : Emu) (rnd : Nat) : Option Emu := do
  let (op, e₁) ← e.fetch
  execute e₁ op rnd

/-! ## Decoding and dispatch helper lemmas -/

theorem digit1_lt (op : Nat) : digit1 op < 16 := by
  have h1 : op &&& 0xF000 ≤ 0xF000 := Nat.and_le_right
  have h2 : digit1 op = (op &&& 0xF000) / 4096 := by
    simp [digit1, Nat.shiftRight_eq_div_pow]
  omega

theorem digit2_lt (op : Nat) : digit2 op < 16 := by
  have h1 : op &&& 0x0F00 ≤ 0x0F00 := Nat.and_le_right
  have h2 : digit2 op = (op &&& 0x0F00) / 256 := by
    simp [digit2, Nat.shiftRight_eq_div_pow]
  omega

theorem digit4_lt (op : Nat) : digit4 op < 16 := by
  have h1 : op &&& 0x000F ≤ 0x000F := Nat.and_le_right
  simp only [digit4]
  omega

/-- Inversion of a successful fetch: the program counter was in range, the
opcode is the big-endian combination of the two bytes at it, and the returned
state only advanced the program counter by 2. -/
theorem fetch_some {e : Emu} {op : Nat} {e₁ : Emu} (h : e.fetch = some (op, e₁)) :
    e.pc + 1 < RAM_SIZE ∧ op = (e.ram e.pc <<< 8) ||| e.ram (e.pc + 1) ∧
      e₁ = { e with pc := e.pc + 2 } := by
  simp only [Emu.fetch] at h
  split at h
  case isTrue hc =>
    simp only [RAM_SIZE] at hc
    have hm : (e.pc + 1) % 65536 = e.pc + 1 := by omega
    have hm2 : (e.pc + 2) % 65536 = e.pc + 2 := by omega
    rw [Option.some.injEq, Prod.mk.injEq, hm, hm2] at h
    exact ⟨by simp only [RAM_SIZE]; omega, h.1.symm, h.2.symm⟩
  case isFalse => exact Option.noConfusion h

theorem tick_of_fetch {e e₁ : Emu} {op : Nat} (rnd : Nat) (h : e.fetch = some (op, e₁)) :
    tick e rnd = execute e₁ op rnd := by
  simp [tick, h]

/-- The only arm of the dispatch that reads the random byte is `0xCXNN`. -/
theorem execute_rnd_indep (e : Emu) (op r₁ r₂ : Nat) (h : digit1 op ≠ 0xC) :
    execute e op r₁ = execute e op r₂ := by
  have hd : digit1 op < 16 := digit1_lt op
  interval_cases hk : digit1 op <;> simp [execute, hk] at h ⊢

/-- Reduction of `execute` for the `0x5XY?` arm: both compared registers are
decoded from `digit2`, so the comparison always succeeds and the program
counter is always advanced. -/
theorem execute_op5 (e : Emu) (op rnd : Nat) (h1 : digit1 op = 5) :
    execute e op rnd = some { e with pc := (e.pc + 2) % 65536 } := by
  simp [execute, h1]

/-- Reduction of `execute` for the `0x7XNN` arm. -/
theorem execute_op7 (e : Emu) (op rnd : Nat) (h1 : digit1 op = 7) :
    execute e op rnd =
      some { e with v_reg := upd e.v_reg (digit2 op)
                      ((e.v_reg (digit2 op) + (op &&& 0x00FF)) % 256) } := by
  simp [execute, h1]

/-! ## Claim C1 -/

/-- Concrete state for exercising the `0x5XY0` arm: V0 = 1, V1 = 2. -/
def c1emu : Emu :=
  { Emu.new with
    pc := 0x300
    v_reg := fun i => if i = 0 then 1 else if i = 1 then 2 else 0 }

/-- Claim C1, failing input: executing the `0x5010` instruction word
(skip-if-registers-equal with X = 0, Y = 1) on a state with V0 = 1 ≠ 2 = V1
nevertheless advances the program counter by 2, because the Rust code binds
both operand indices to `digit2` and so compares V0 with itself. -/
theorem c1_skip_if_registers_equal_code_bug :
    c1emu.v_reg 0 ≠ c1emu.v_reg 1 ∧
      execute c1emu 0x5010 0 = some { c1emu with pc := 0x302 } :=
  ⟨by decide, rfl⟩

/-! ## Claim C2 -/

/-- Claim C2, failing input: `reset` applied to the power-on state zeroes RAM
byte 0, whereas `new` loads the first font byte `0xF0` there — `reset` does
not reload the font table, so its result differs from the state `new`
returns. -/
theorem c2_reset_not_power_on :
    (Emu.reset Emu.new).ram 0 = 0 ∧ Emu.new.ram 0 = 0xF0 ∧
      Emu.reset Emu.new ≠ Emu.new :=
  ⟨rfl, rfl, fun hEq => absurd (congrArg (fun s => s.ram 0) hEq) (by decide)⟩

/-! ## Claim C9 -/

/-- Claim C9, counterexample: executing add-immediate `0x7F01` (X = 15,
NN = 1) on the power-on state changes the flag register V15 from 0 to 1,
refuting the claim that add-immediate never changes the flag register. -/
theorem c9_add_immediate_counterexample :
    ∃ e', execute Emu.new 0x7F01 0 = some e' ∧
      Emu.new.v_reg 15 = 0 ∧ e'.v_reg 15 = 1 :=
  ⟨_, rfl, rfl, rfl⟩

/-- Claim C9, amended: add-immediate `0x7XNN` sets register X to
(register X + NN) mod 256, and leaves the flag register (register 15)
unchanged whenever X ≠ 15 (when X = 15 the written register is the flag
register itself). -/
theorem c9_add_immediate_amended (e : Emu) (op rnd x nn : Nat)
    (h1 : digit1 op = 7) (h2 : digit2 op = x) (hnn : op &&& 0x00FF = nn) :
    execute e op rnd = some { e with v_reg := upd e.v_reg x ((e.v_reg x + nn) % 256) } ∧
      (x ≠ 15 → ∀ e', execute e op rnd = some e' → e'.v_reg 15 = e.v_reg 15) := by
  have hex := execute_op7 e op rnd h1
  rw [h2, hnn] at hex
  refine ⟨hex, fun hx e' he' => ?_⟩
  rw [hex, Option.some.injEq] at he'
  rw [← he']
  simp [upd, Ne.symm hx]

/-- Claim C9 amended, witness at `op = 0x7007` (X = 0, NN = 7) on the
power-on state. -/
theorem c9_add_immediate_amended_witness :
    digit1 0x7007 = 7 ∧ digit2 0x7007 = 0 ∧ 0x7007 &&& 0x00FF = 7 ∧
      (execute Emu.new 0x7007 0 =
          some { Emu.new with v_reg := upd Emu.new.v_reg 0 ((Emu.new.v_reg 0 + 7) % 256) } ∧
        ((0 : Nat) ≠ 15 → ∀ e', execute Emu.new 0x7007 0 = some e' →
          e'.v_reg 15 = Emu.new.v_reg 15)) :=
  ⟨by decide, by decide, by decide,
    c9_add_immediate_amended Emu.new 0x7007 0 0 7 (by decide) (by decide) (by decide)⟩

/-! ## Claim C10 -/

/-- Claim C10: whenever the instruction word fetched at the program counter
has a top nibble different from `0xC` (the random opcode), the instruction
step is independent of the random byte: two steps from the same state give
the same result. -/
theorem c10_deterministic_except_random (e e₁ : Emu) (op r₁ r₂ : Nat)
    (hf : e.fetch = some (op, e₁)) (h : digit1 op ≠ 0xC) :
    tick e r₁ = tick e r₂ := by
  rw [tick_of_fetch r₁ hf, tick_of_fetch r₂ hf]
  exact execute_rnd_indep e₁ op r₁ r₂ h

/-- Claim C10, witness: the power-on state fetches the instruction word 0
(a NOP), whose top nibble is 0 ≠ 0xC, so stepping with two different random
bytes agrees. -/
theorem c10_deterministic_except_random_witness :
    Emu.new.fetch = some (0, { Emu.new with pc := 0x202 }) ∧
      digit1 0 ≠ 0xC ∧ tick Emu.new 5 = tick Emu.new 99 :=
  ⟨rfl, by decide,
    c10_deterministic_except_random Emu.new { Emu.new with pc := 0x202 } 0 5 99 rfl
      (by decide)⟩

/-! ## Claim C7 -/

/-- Reduction of `execute` for the `0xFX33` arm (in-bounds case). -/
theorem execute_opF33 (e : Emu) (op rnd : Nat)
    (h1 : digit1 op = 0xF) (h3 : digit3 op = 0x3) (h4 : digit4 op = 0x3)
    (hi : e.i_reg + 2 < RAM_SIZE) :
    execute e op rnd = some { e with ram := (upd (upd (upd e.ram e.i_reg
      (digit2 op / 100)) (e.i_reg + 1) (digit2 op % 100 / 10)) (e.i_reg + 2)
      (digit2 op % 10)) } := by
  simp [execute, h1, h3, h4, hi]

/-- Claim C7: store-BCD `0xFX33` (with the index register at least 3 bytes
below the end of RAM) writes the hundreds, tens and ones digits of the
register INDEX X itself — not of the value in register X — to RAM at
addresses I, I+1, I+2, and changes nothing else. -/
theorem c7_bcd_of_register_index (e : Emu) (op rnd x : Nat)
    (h1 : digit1 op = 0xF) (h3 : digit3 op = 0x3) (h4 : digit4 op = 0x3)
    (h2 : digit2 op = x) (hi : e.i_reg + 2 < RAM_SIZE) :
    ∃ e', execute e op rnd = some e' ∧
      e'.ram e.i_reg = x / 100 ∧
      e'.ram (e.i_reg + 1) = x % 100 / 10 ∧
      e'.ram (e.i_reg + 2) = x % 10 ∧
      (∀ j, j ≠ e.i_reg → j ≠ e.i_reg + 1 → j ≠ e.i_reg + 2 → e'.ram j = e.ram j) ∧
      e'.pc = e.pc ∧ e'.screen = e.screen ∧ e'.v_reg = e.v_reg ∧ e'.i_reg = e.i_reg ∧
      e'.sp = e.sp ∧ e'.stack = e.stack ∧ e'.keys = e.keys ∧ e'.dt = e.dt ∧
      e'.st = e.st := by
  refine ⟨_, execute_opF33 e op rnd h1 h3 h4 hi, ?_, ?_, ?_, ?_,
    rfl, rfl, rfl, rfl, rfl, rfl, rfl, rfl, rfl⟩
  · rw [h2]; simp [upd]
  · rw [h2]; simp [upd]
  · rw [h2]; simp [upd]
  · intro j hj1 hj2 hj3
    simp [upd, hj1, hj2, hj3]

/-- Claim C7, witness at `op = 0xF733` (X = 7) on the power-on state
(index register 0): the bytes 0, 0, 7 are written at addresses 0, 1, 2. -/
theorem c7_bcd_of_register_index_witness :
    digit1 0xF733 = 0xF ∧ digit3 0xF733 = 0x3 ∧ digit4 0xF733 = 0x3 ∧
      digit2 0xF733 = 7 ∧ Emu.new.i_reg + 2 < RAM_SIZE ∧
      (∃ e', execute Emu.new 0xF733 0 = some e' ∧
        e'.ram Emu.new.i_reg = 7 / 100 ∧
        e'.ram (Emu.new.i_reg + 1) = 7 % 100 / 10 ∧
        e'.ram (Emu.new.i_reg + 2) = 7 % 10 ∧
        (∀ j, j ≠ Emu.new.i_reg → j ≠ Emu.new.i_reg + 1 → j ≠ Emu.new.i_reg + 2 →
          e'.ram j = Emu.new.ram j) ∧
        e'.pc = Emu.new.pc ∧ e'.screen = Emu.new.screen ∧ e'.v_reg = Emu.new.v_reg ∧
        e'.i_reg = Emu.new.i_reg ∧ e'.sp = Emu.new.sp ∧ e'.stack = Emu.new.stack ∧
        e'.keys = Emu.new.keys ∧ e'.dt = Emu.new.dt ∧ e'.st = Emu.new.st) :=
  ⟨by decide, by decide, by decide, by decide, by decide,
    c7_bcd_of_register_index Emu.new 0xF733 0 7
      (by decide) (by decide) (by decide) (by decide) (by decide)⟩

/-! ## Claim C8 -/

theorem storeRegs_append (vreg : Nat → Nat) (s : Nat) (L₁ L₂ : List Nat) (ram : Nat → Nat) :
    storeRegs ram vreg s (L₁ ++ L₂) =
      (storeRegs ram vreg s L₁).bind (fun r => storeRegs r vreg s L₂) := by
  induction L₁ generalizing ram with
  | nil => simp [storeRegs]
  | cons i rest ih =>
    simp only [List.cons_append, storeRegs]
    split
    · exact ih _
    · simp

/-- Running the `0xFX55` loop over registers `0..x` (all writes in RAM
bounds) writes `v_reg[i]` to `ram[s + i]` for `i < x` and leaves every other
byte alone. -/
theorem storeRegs_range (vreg : Nat → Nat) (s x : Nat) (hx : s + x ≤ RAM_SIZE)
    (ram : Nat → Nat) :
    storeRegs ram vreg s (List.range x) =
      some (fun j => if s ≤ j ∧ j < s + x then vreg (j - s) else ram j) := by
  induction x with
  | zero =>
    simp only [List.range_zero, storeRegs]
    refine congrArg some (funext fun j => ?_)
    rw [if_neg (by omega)]
  | succ n ih =>
    rw [List.range_succ, storeRegs_append, ih (by omega)]
    simp only [Option.some_bind, storeRegs]
    rw [if_pos (by simp only [RAM_SIZE] at hx ⊢; omega)]
    refine congrArg some (funext fun j => ?_)
    simp only [upd]
    split_ifs <;> first | rfl | omega | (congr 1; omega)

theorem loadRegs_append (ram : Nat → Nat) (s : Nat) (L₁ L₂ : List Nat) (vreg : Nat → Nat) :
    loadRegs ram vreg s (L₁ ++ L₂) =
      (loadRegs ram vreg s L₁).bind (fun v => loadRegs ram v s L₂) := by
  induction L₁ generalizing vreg with
  | nil => simp [loadRegs]
  | cons i rest ih =>
    simp only [List.cons_append, loadRegs]
    split
    · exact ih _
    · simp

/-- Running the `0xFX65` loop over registers `0..x` (all reads in RAM
bounds) loads `ram[s + i]` into `v_reg[i]` for `i < x` and leaves every
other register alone. -/
theorem loadRegs_range (ram : Nat → Nat) (s x : Nat) (hx : s + x ≤ RAM_SIZE)
    (vreg : Nat → Nat) :
    loadRegs ram vreg s (List.range x) =
      some (fun i => if i < x then ram (s + i) else vreg i) := by
  induction x with
  | zero =>
    simp only [List.range_zero, loadRegs]
    refine congrArg some (funext fun i => ?_)
    rw [if_neg (by omega)]
  | succ n ih =>
    rw [List.range_succ, loadRegs_append, ih (by omega)]
    simp only [Option.some_bind, loadRegs]
    rw [if_pos (by simp only [RAM_SIZE] at hx ⊢; omega)]
    refine congrArg some (funext fun i => ?_)
    simp only [upd]
    split_ifs <;> first | rfl | omega | (congr 1; omega)

/-- Reduction of `execute` for the `0xFX55` arm. -/
theorem execute_opF55 (e : Emu) (op rnd : Nat)
    (h1 : digit1 op = 0xF) (h3 : digit3 op = 0x5) (h4 : digit4 op = 0x5) :
    execute e op rnd =
      match storeRegs e.ram e.v_reg e.i_reg (List.range (digit2 op)) with
      | some ram => some { e with ram := ram }
      | none => none := by
  simp [execute, h1, h3, h4]

/-- Reduction of `execute` for the `0xFX65` arm. -/
theorem execute_opF65 (e : Emu) (op rnd : Nat)
    (h1 : digit1 op = 0xF) (h3 : digit3 op = 0x6) (h4 : digit4 op = 0x5) :
    execute e op rnd =
      match loadRegs e.ram e.v_reg e.i_reg (List.range (digit2 op)) with
      | some vreg => some { e with v_reg := vreg }
      | none => none := by
  simp [execute, h1, h3, h4]

/-- Claim C8: store-registers `0xFX55` copies exactly registers `0..X-1`
(none when X = 0, never register X itself) to RAM at `I..I+X-1`, and
load-registers `0xFX65` copies RAM at `I..I+X-1` into exactly registers
`0..X-1`; everything else is unchanged.  Stated for states where the copied
range lies within RAM (the Rust code panics otherwise). -/
theorem c8_store_load_registers (e : Emu) (opS opL rnd x : Nat)
    (hS1 : digit1 opS = 0xF) (hS3 : digit3 opS = 0x5) (hS4 : digit4 opS = 0x5)
    (hS2 : digit2 opS = x)
    (hL1 : digit1 opL = 0xF) (hL3 : digit3 opL = 0x6) (hL4 : digit4 opL = 0x5)
    (hL2 : digit2 opL = x)
    (hx : e.i_reg + x ≤ RAM_SIZE) :
    (∃ e', execute e opS rnd = some e' ∧
      (∀ i, i < x → e'.ram (e.i_reg + i) = e.v_reg i) ∧
      (∀ j, j < e.i_reg ∨ e.i_reg + x ≤ j → e'.ram j = e.ram j) ∧
      e'.v_reg = e.v_reg ∧ e'.pc = e.pc ∧ e'.i_reg = e.i_reg ∧ e'.screen = e.screen ∧
      e'.sp = e.sp ∧ e'.stack = e.stack ∧ e'.keys = e.keys ∧ e'.dt = e.dt ∧ e'.st = e.st) ∧
    (∃ e'', execute e opL rnd = some e'' ∧
      (∀ i, i < x → e''.v_reg i = e.ram (e.i_reg + i)) ∧
      (∀ i, x ≤ i → e''.v_reg i = e.v_reg i) ∧
      e''.ram = e.ram ∧ e''.pc = e.pc ∧ e''.i_reg = e.i_reg ∧ e''.screen = e.screen ∧
      e''.sp = e.sp ∧ e''.stack = e.stack ∧ e''.keys = e.keys ∧ e''.dt = e.dt ∧
      e''.st = e.st) := by
  constructor
  · have hred : execute e opS rnd = some { e with ram := fun j => if e.i_reg ≤ j ∧ j < e.i_reg + x then e.v_reg (j - e.i_reg) else e.ram j } := by
      rw [execute_opF55 e opS rnd hS1 hS3 hS4, hS2,
        storeRegs_range e.v_reg e.i_reg x hx e.ram]
    refine ⟨_, hred, ?_, ?_, rfl, rfl, rfl, rfl, rfl, rfl, rfl, rfl, rfl⟩
    · intro i hi
      show (if e.i_reg ≤ e.i_reg + i ∧ e.i_reg + i < e.i_reg + x then
          e.v_reg (e.i_reg + i - e.i_reg) else e.ram (e.i_reg + i)) = e.v_reg i
      rw [if_pos (by omega)]
      congr 1
      omega
    · intro j hj
      show (if e.i_reg ≤ j ∧ j < e.i_reg + x then e.v_reg (j - e.i_reg) else e.ram j)
          = e.ram j
      rw [if_neg (by omega)]
  · have hred : execute e opL rnd = some { e with v_reg := fun i => if i < x then e.ram (e.i_reg + i) else e.v_reg i } := by
      rw [execute_opF65 e opL rnd hL1 hL3 hL4, hL2,
        loadRegs_range e.ram e.i_reg x hx e.v_reg]
    refine ⟨_, hred, ?_, ?_, rfl, rfl, rfl, rfl, rfl, rfl, rfl, rfl, rfl⟩
    · intro i hi
      show (if i < x then e.ram (e.i_reg + i) else e.v_reg i) = e.ram (e.i_reg + i)
      rw [if_pos hi]
    · intro i hi
      show (if i < x then e.ram (e.i_reg + i) else e.v_reg i) = e.v_reg i
      rw [if_neg (by omega)]

/-- Concrete state for the C8 witness: index register 0x400, V0 = 3, V1 = 4. -/
def c8emu : Emu :=
  { Emu.new with
    i_reg := 0x400
    v_reg := fun i => if i = 0 then 3 else if i = 1 then 4 else 0 }

/-- Claim C8, witness at X = 2 (`0xF255` / `0xF265`). -/
theorem c8_store_load_registers_witness :
    digit1 0xF255 = 0xF ∧ digit3 0xF255 = 0x5 ∧ digit4 0xF255 = 0x5 ∧
      digit2 0xF255 = 2 ∧
      digit1 0xF265 = 0xF ∧ digit3 0xF265 = 0x6 ∧ digit4 0xF265 = 0x5 ∧
      digit2 0xF265 = 2 ∧ c8emu.i_reg + 2 ≤ RAM_SIZE ∧
      ((∃ e', execute c8emu 0xF255 0 = some e' ∧
        (∀ i, i < 2 → e'.ram (c8emu.i_reg + i) = c8emu.v_reg i) ∧
        (∀ j, j < c8emu.i_reg ∨ c8emu.i_reg + 2 ≤ j → e'.ram j = c8emu.ram j) ∧
        e'.v_reg = c8emu.v_reg ∧ e'.pc = c8emu.pc ∧ e'.i_reg = c8emu.i_reg ∧
        e'.screen = c8emu.screen ∧ e'.sp = c8emu.sp ∧ e'.stack = c8emu.stack ∧
        e'.keys = c8emu.keys ∧ e'.dt = c8emu.dt ∧ e'.st = c8emu.st) ∧
      (∃ e'', execute c8emu 0xF265 0 = some e'' ∧
        (∀ i, i < 2 → e''.v_reg i = c8emu.ram (c8emu.i_reg + i)) ∧
        (∀ i, 2 ≤ i → e''.v_reg i = c8emu.v_reg i) ∧
        e''.ram = c8emu.ram ∧ e''.pc = c8emu.pc ∧ e''.i_reg = c8emu.i_reg ∧
        e''.screen = c8emu.screen ∧ e''.sp = c8emu.sp ∧ e''.stack = c8emu.stack ∧
        e''.keys = c8emu.keys ∧ e''.dt = c8emu.dt ∧ e''.st = c8emu.st)) :=
  ⟨by decide, by decide, by decide, by decide, by decide, by decide, by decide,
    by decide, by decide,
    c8_store_load_registers c8emu 0xF255 0xF265 0 2
      (by decide) (by decide) (by decide) (by decide)
      (by decide) (by decide) (by decide) (by decide) (by decide)⟩

/-! ## Claim C4 -/

theorem foldl_keys_none (keys : Nat → Bool) (n acc : Nat)
    (h : ∀ i, i < n → keys i = false) :
    (List.range n).foldl (fun acc i => if keys i then i else acc) acc = acc := by
  induction n with
  | zero => simp
  | succ m ih =>
    rw [List.range_succ, List.foldl_append]
    simp only [List.foldl_cons, List.foldl_nil, h m (by omega)]
    exact ih (fun i hi => h i (by omega))

theorem foldl_keys_highest (keys : Nat → Bool) (k n acc : Nat)
    (hk : k < n) (hkey : keys k = true)
    (hhi : ∀ j, j < n → k < j → keys j = false) :
    (List.range n).foldl (fun acc i => if keys i then i else acc) acc = k := by
  induction n with
  | zero => omega
  | succ m ih =>
    rw [List.range_succ, List.foldl_append]
    simp only [List.foldl_cons, List.foldl_nil]
    rcases Nat.lt_succ_iff_lt_or_eq.mp hk with hlt | heq
    · rw [hhi m (by omega) (by omega)]
      exact ih hlt (fun j h₁ h₂ => hhi j (by omega) h₂)
    · subst heq
      simp [hkey]

/-- If no key is pressed the scan returns the sentinel `NUM_KEYS`. -/
theorem keyScan_none (keys : Nat → Bool) (h : ∀ i, i < NUM_KEYS → keys i = false) :
    keyScan keys = NUM_KEYS :=
  foldl_keys_none keys NUM_KEYS NUM_KEYS h

/-- If key `k` is the highest-indexed pressed key, the scan returns `k`. -/
theorem keyScan_highest (keys : Nat → Bool) (k : Nat) (hk : k < NUM_KEYS)
    (hkey : keys k = true) (hhi : ∀ j, j < NUM_KEYS → k < j → keys j = false) :
    keyScan keys = k :=
  foldl_keys_highest keys k NUM_KEYS NUM_KEYS hk hkey hhi

/-- Reduction of `execute` for the `0xFX0A` wait-for-key arm. -/
theorem execute_opF0A (e : Emu) (op rnd : Nat)
    (h1 : digit1 op = 0xF) (h3 : digit3 op = 0x0) (h4 : digit4 op = 0xA) :
    execute e op rnd =
      if keyScan e.keys = NUM_KEYS then
        some { e with pc := (e.pc + 65536 - 2) % 65536 }
      else
        some { e with v_reg := upd e.v_reg (digit2 op) (keyScan e.keys) } := by
  simp [execute, h1, h3, h4]

/-- Claim C4: stepping a state whose fetched instruction word is
wait-for-key `0xFX0A` leaves the whole state unchanged when no key is
pressed (the fetch advance of +2 is exactly undone by the −2 rewind), and
when at least one key is pressed stores the highest-indexed pressed key in
register X while the program counter keeps its post-fetch value. -/
theorem c4_wait_for_key (e e₁ : Emu) (op rnd x : Nat)
    (hf : e.fetch = some (op, e₁))
    (h1 : digit1 op = 0xF) (h3 : digit3 op = 0x0) (h4 : digit4 op = 0xA)
    (h2 : digit2 op = x) :
    ((∀ i, i < NUM_KEYS → e.keys i = false) → tick e rnd = some e) ∧
    (∀ k, k < NUM_KEYS → e.keys k = true →
      (∀ j, j < NUM_KEYS → k < j → e.keys j = false) →
      tick e rnd = some { e with pc := e.pc + 2, v_reg := upd e.v_reg x k }) := by
  obtain ⟨hpc, hop, he₁⟩ := fetch_some hf
  have ht : tick e rnd = execute e₁ op rnd := tick_of_fetch rnd hf
  subst he₁
  rw [execute_opF0A _ op rnd h1 h3 h4] at ht
  constructor
  · intro hnone
    rw [show keyScan ({ e with pc := e.pc + 2 } : Emu).keys = NUM_KEYS from
      keyScan_none e.keys hnone, if_pos rfl] at ht
    rw [ht]
    refine congrArg some (Emu.ext ?_ rfl rfl rfl rfl rfl rfl rfl rfl rfl)
    show (e.pc + 2 + 65536 - 2) % 65536 = e.pc
    simp only [RAM_SIZE] at hpc
    omega
  · intro k hk hkey hhi
    have hscan : keyScan ({ e with pc := e.pc + 2 } : Emu).keys = k :=
      keyScan_highest e.keys k hk hkey hhi
    rw [hscan, if_neg (by simp only [NUM_KEYS] at hk ⊢; omega), h2] at ht
    exact ht

/-- State with the wait-for-key instruction `0xF10A` loaded at the load
address; no key pressed. -/
def c4emuA : Emu :=
  { Emu.new with ram := fun i =>
      if i = 0x200 then 0xF1 else if i = 0x201 then 0x0A else Emu.new.ram i }

/-- As `c4emuA` but with key 3 pressed. -/
def c4emuB : Emu := { c4emuA with keys := fun i => i == 3 }

/-- Claim C4, witness: with no key pressed a step leaves the state unchanged
(so the program counter is unchanged between steps); with key 3 pressed a
step advances the program counter and stores 3 in register 1. -/
theorem c4_wait_for_key_witness :
    c4emuA.fetch = some (0xF10A, { c4emuA with pc := 0x202 }) ∧
      digit1 0xF10A = 0xF ∧ digit3 0xF10A = 0x0 ∧ digit4 0xF10A = 0xA ∧
      digit2 0xF10A = 1 ∧
      tick c4emuA 0 = some c4emuA ∧
      c4emuB.fetch = some (0xF10A, { c4emuB with pc := 0x202 }) ∧
      tick c4emuB 0 = some { c4emuB with pc := c4emuB.pc + 2, v_reg := upd c4emuB.v_reg 1 3 } :=
  ⟨rfl, by decide, by decide, by decide, by decide,
    (c4_wait_for_key c4emuA { c4emuA with pc := 0x202 } 0xF10A 0 1 rfl
      (by decide) (by decide) (by decide) (by decide)).1 (by decide),
    rfl,
    (c4_wait_for_key c4emuB { c4emuB with pc := 0x202 } 0xF10A 0 1 rfl
      (by decide) (by decide) (by decide) (by decide)).2 3 (by decide) (by decide)
      (by decide)⟩

/-! ## Claim C5 -/

/-- A fetch with the program counter comfortably inside RAM succeeds and
returns the combined instruction word and the advanced state. -/
theorem fetch_build (e : Emu) (h : e.pc + 1 < RAM_SIZE) :
    e.fetch = some ((e.ram e.pc <<< 8) ||| e.ram (e.pc + 1), { e with pc := e.pc + 2 }) := by
  simp only [RAM_SIZE] at h
  have h1 : (e.pc + 1) % 65536 = e.pc + 1 := by omega
  have h2 : (e.pc + 2) % 65536 = e.pc + 2 := by omega
  simp only [Emu.fetch, h1, h2]
  rw [if_pos ⟨by simp only [RAM_SIZE]; omega, by simp only [RAM_SIZE]; omega⟩]

/-- Reduction of `execute` for the `0x2NNN` call arm (stack not full). -/
theorem execute_op2 (e : Emu) (op rnd : Nat)
    (h1 : digit1 op = 2) (hsp : e.sp < STACK_SIZE) :
    execute e op rnd =
      some { e with stack := upd e.stack e.sp e.pc, sp := e.sp + 1, pc := op &&& 0x0FFF } := by
  simp [execute, h1, Emu.push, hsp]

/-- Reduction of `execute` for the `0x00EE` return arm (stack not empty). -/
theorem execute_opEE (e : Emu) (op rnd : Nat)
    (h1 : digit1 op = 0) (h2 : digit2 op = 0) (h3 : digit3 op = 0xE) (h4 : digit4 op = 0xE)
    (hsp : 0 < e.sp ∧ e.sp - 1 < STACK_SIZE) :
    execute e op rnd = some { e with sp := e.sp - 1, pc := e.stack (e.sp - 1) } := by
  simp [execute, h1, h2, h3, h4, Emu.pop, hsp]

/-- One step of a state whose two bytes at the program counter hold the
return instruction word `0x00EE` (stack not empty): the popped address
becomes the program counter. -/
theorem tick_ret (e₂ : Emu) (r : Nat) (hpc2 : e₂.pc + 1 < RAM_SIZE)
    (hr0 : e₂.ram e₂.pc = 0x00) (hr1 : e₂.ram (e₂.pc + 1) = 0xEE)
    (hsp : 0 < e₂.sp ∧ e₂.sp - 1 < STACK_SIZE) :
    ∃ e₃, tick e₂ r = some e₃ ∧ e₃.pc = e₂.stack (e₂.sp - 1) := by
  have hf₂ := fetch_build e₂ hpc2
  rw [hr0, hr1, show ((0x00 <<< 8) ||| 0xEE : Nat) = 0xEE by decide] at hf₂
  rw [tick_of_fetch r hf₂, execute_opEE { e₂ with pc := e₂.pc + 2 } 0xEE r (by decide)
    (by decide) (by decide) (by decide) hsp]
  exact ⟨_, rfl, rfl⟩

/-- Claim C5: from a state with call-stack depth strictly below 16 whose
fetched instruction word is a call `0x2NNN`, and with the return instruction
word `0x00EE` stored at the call target NNN, one step (the call) followed by
a second step (the return at the target) leaves the program counter at the
address of the instruction word immediately following the call. -/
theorem c5_call_return_roundtrip (e e₁ : Emu) (op r₁ r₂ : Nat)
    (hf : e.fetch = some (op, e₁)) (h1 : digit1 op = 2) (hsp : e.sp < STACK_SIZE)
    (hnnn : (op &&& 0x0FFF) + 1 < RAM_SIZE)
    (hr0 : e.ram (op &&& 0x0FFF) = 0x00) (hr1 : e.ram ((op &&& 0x0FFF) + 1) = 0xEE) :
    ∃ e₂ e₃, tick e r₁ = some e₂ ∧ tick e₂ r₂ = some e₃ ∧ e₃.pc = e.pc + 2 := by
  obtain ⟨hpc, hop, he₁⟩ := fetch_some hf
  have ht : tick e r₁ = execute e₁ op r₁ := tick_of_fetch r₁ hf
  subst he₁
  rw [execute_op2 { e with pc := e.pc + 2 } op r₁ h1 hsp] at ht
  obtain ⟨e₃, ht₂, hpc₃⟩ := tick_ret { e with stack := upd e.stack e.sp (e.pc + 2), sp := e.sp + 1, pc := op &&& 0x0FFF } r₂ hnnn hr0 hr1 ⟨Nat.succ_pos _, hsp⟩
  refine ⟨_, e₃, ht, ht₂, ?_⟩
  rw [hpc₃]
  show upd e.stack e.sp (e.pc + 2) (e.sp + 1 - 1) = e.pc + 2
  simp [upd]

/-- State with a call `0x2400` at the load address and a return `0x00EE` at
the call target 0x400. -/
def c5emu : Emu :=
  { Emu.new with ram := fun i =>
      if i = 0x200 then 0x24 else if i = 0x201 then 0x00 else
      if i = 0x400 then 0x00 else if i = 0x401 then 0xEE else Emu.new.ram i }

/-- Claim C5, witness: calling 0x400 from 0x200 and returning brings the
program counter to 0x202, the instruction word after the call. -/
theorem c5_call_return_roundtrip_witness :
    c5emu.fetch = some (0x2400, { c5emu with pc := 0x202 }) ∧
      digit1 0x2400 = 2 ∧ c5emu.sp < STACK_SIZE ∧
      (0x2400 &&& 0x0FFF) + 1 < RAM_SIZE ∧
      c5emu.ram (0x2400 &&& 0x0FFF) = 0x00 ∧ c5emu.ram ((0x2400 &&& 0x0FFF) + 1) = 0xEE ∧
      (∃ e₂ e₃, tick c5emu 0 = some e₂ ∧ tick e₂ 0 = some e₃ ∧ e₃.pc = c5emu.pc + 2) :=
  ⟨rfl, by decide, by decide, by decide, by decide, by decide,
    c5_call_return_roundtrip c5emu { c5emu with pc := 0x202 } 0x2400 0 0 rfl
      (by decide) (by decide) (by decide) (by decide) (by decide)⟩

/-! ## Draw opcode characterization (claims C3, C6) -/

theorem pixIdx_col_inj (xc yc yl : Nat) {a b : Nat} (ha : a < 8) (hb : b < 8)
    (h : pixIdx xc yc a yl = pixIdx xc yc b yl) : a = b := by
  simp only [pixIdx, SCREEN_WIDTH, SCREEN_HEIGHT] at h
  omega

theorem pixIdx_row_ne (xc yc : Nat) {a b yl yl' : Nat}
    (hy : yl < 32) (hy' : yl' < 32) (hne : yl ≠ yl') :
    pixIdx xc yc a yl ≠ pixIdx xc yc b yl' := by
  simp only [pixIdx, SCREEN_WIDTH, SCREEN_HEIGHT]
  omega

theorem any_congr_mem {α : Type} {l : List α} {f g : α → Bool}
    (h : ∀ a ∈ l, f a = g a) : l.any f = l.any g := by
  induction l with
  | nil => rfl
  | cons a t ih =>
    simp only [List.any_cons, h a (by simp)]
    rw [ih (fun b hb => h b (by simp [hb]))]

/-- The flag accumulated by the inner draw loop: the incoming flag, or-ed
with the pre-draw value of every pixel the loop flips. -/
theorem drawBits_snd (pixels xc yc yl : Nat) (L : List Nat)
    (hL8 : ∀ a ∈ L, a < 8) (hnd : L.Nodup) (scr : Nat → Bool) (fl : Bool) :
    (drawBits scr fl pixels xc yc yl L).2 =
      (fl || L.any fun xl => sprBit pixels xl && scr (pixIdx xc yc xl yl)) := by
  induction L generalizing scr fl with
  | nil => simp [drawBits]
  | cons xl rest ih =>
    simp only [drawBits, List.any_cons]
    by_cases hb : sprBit pixels xl = true
    · rw [if_pos hb]
      rw [ih (fun a ha => hL8 a (by simp [ha])) (List.Nodup.of_cons hnd)]
      have hcong : rest.any (fun a => sprBit pixels a &&
          (upd scr (pixIdx xc yc xl yl) (xor (scr (pixIdx xc yc xl yl)) true))
            (pixIdx xc yc a yl)) =
          rest.any (fun a => sprBit pixels a && scr (pixIdx xc yc a yl)) := by
        refine any_congr_mem (fun a ha => ?_)
        have hxl_nin : xl ∉ rest := (List.nodup_cons.mp hnd).1
        have hne : pixIdx xc yc a yl ≠ pixIdx xc yc xl yl := by
          intro hEq
          have haxl : a = xl :=
            pixIdx_col_inj xc yc yl (hL8 a (by simp [ha])) (hL8 xl (by simp)) hEq
          exact hxl_nin (haxl ▸ ha)
        simp [upd, hne]
      rw [hcong, hb]
      cases fl <;> cases scr (pixIdx xc yc xl yl) <;> simp
    · rw [if_neg hb]
      rw [ih (fun a ha => hL8 a (by simp [ha])) (List.Nodup.of_cons hnd)]
      simp only [Bool.not_eq_true] at hb
      simp [hb]

/-- Pointwise effect of the inner draw loop on the screen: pixel `j` is
XOR-ed exactly when some processed column has a set sprite bit targeting it. -/
theorem drawBits_fst (pixels xc yc yl : Nat) (L : List Nat)
    (hL8 : ∀ a ∈ L, a < 8) (hnd : L.Nodup) (scr : Nat → Bool) (fl : Bool) (j : Nat) :
    (drawBits scr fl pixels xc yc yl L).1 j =
      xor (scr j) (L.any fun xl => sprBit pixels xl && (pixIdx xc yc xl yl == j)) := by
  induction L generalizing scr fl with
  | nil => simp [drawBits]
  | cons xl rest ih =>
    simp only [drawBits, List.any_cons]
    have hrest8 : ∀ a ∈ rest, a < 8 := fun a ha => hL8 a (by simp [ha])
    have hndr : rest.Nodup := List.Nodup.of_cons hnd
    have hxl_nin : xl ∉ rest := (List.nodup_cons.mp hnd).1
    by_cases hb : sprBit pixels xl = true
    · rw [if_pos hb, ih hrest8 hndr]
      by_cases hj : pixIdx xc yc xl yl = j
      · have hrest_none : rest.any (fun a => sprBit pixels a &&
            (pixIdx xc yc a yl == j)) = false := by
          rw [List.any_eq_false]
          intro a ha
          have hne : pixIdx xc yc a yl ≠ j := by
            intro hEq
            have haxl : a = xl := pixIdx_col_inj xc yc yl (hrest8 a ha) (hL8 xl (by simp))
              (by rw [hEq, hj])
            exact hxl_nin (haxl ▸ ha)
          simp [hne]
        rw [hrest_none]
        simp [upd, hj, hb]
      · have hj' : j ≠ pixIdx xc yc xl yl := fun h => hj h.symm
        have hupd : upd scr (pixIdx xc yc xl yl) (xor (scr (pixIdx xc yc xl yl)) true) j
            = scr j := by
          simp [upd, hj']
        rw [hupd]
        simp [hb, hj]
    · rw [if_neg hb, ih hrest8 hndr]
      simp only [Bool.not_eq_true] at hb
      simp [hb]

/-- Whether the draw of sprite row `yl` (read at `ireg + yl`) flips screen
index `j`. -/
def rowTouch (ram : Nat → Nat) (ireg xc yc yl j : Nat) : Bool :=
  (List.range 8).any fun xl => sprBit (ram (ireg + yl)) xl && (pixIdx xc yc xl yl == j)

/-- Whether the draw of sprite row `yl` hits an already-set pixel of `scr`. -/
def rowColl (ram : Nat → Nat) (ireg xc yc yl : Nat) (scr : Nat → Bool) : Bool :=
  (List.range 8).any fun xl => sprBit (ram (ireg + yl)) xl && scr (pixIdx xc yc xl yl)

theorem range8_lt : ∀ a ∈ List.range 8, a < 8 := fun _ ha => List.mem_range.mp ha

/-- A pixel flipped by row `yl` is never a pixel of a different row `yl'`
(row offsets below 32 map to distinct wrapped rows). -/
theorem rowTouch_other_row (ram ram' : Nat → Nat) (ireg ireg' xc yc : Nat)
    {yl yl' j : Nat} (hy : yl < 32) (hy' : yl' < 32) (hne : yl ≠ yl')
    (h : rowTouch ram ireg xc yc yl j = true) :
    rowTouch ram' ireg' xc yc yl' j = false := by
  obtain ⟨xl, hxl, hh⟩ := List.any_eq_true.mp h
  rw [Bool.and_eq_true, beq_iff_eq] at hh
  rw [rowTouch, List.any_eq_false]
  intro a _
  have : pixIdx xc yc a yl' ≠ j := by
    rw [← hh.2]
    exact pixIdx_row_ne xc yc hy' hy (Ne.symm hne)
  simp [this]

/-- Full characterization of the draw loops: the resulting screen XORs each
pixel targeted by a set sprite bit, and the flag records whether any flipped
pixel was set in the ORIGINAL screen (the targeted pixels are pairwise
distinct, so reading them along the way equals reading them up front). -/
theorem drawRows_eq (ram : Nat → Nat) (ireg xc yc : Nat) (L : List Nat)
    (hL : ∀ yl ∈ L, yl < 32) (hnd : L.Nodup)
    (hbound : ∀ yl ∈ L, ireg + yl < RAM_SIZE) (scr : Nat → Bool) (fl : Bool) :
    drawRows ram ireg xc yc scr fl L = some
      (fun j => xor (scr j) (L.any fun yl => rowTouch ram ireg xc yc yl j),
       fl || L.any fun yl => rowColl ram ireg xc yc yl scr) := by
  induction L generalizing scr fl with
  | nil => simp [drawRows]
  | cons yl rest ih =>
    have hmem : yl ∈ yl :: rest := by simp
    have hram : (ireg + yl) % 65536 = ireg + yl := by
      have := hbound yl hmem
      simp only [RAM_SIZE] at this
      omega
    have hrest32 : ∀ y ∈ rest, y < 32 := fun y hy => hL y (by simp [hy])
    have hndr : rest.Nodup := List.Nodup.of_cons hnd
    have hbr : ∀ y ∈ rest, ireg + y < RAM_SIZE := fun y hy => hbound y (by simp [hy])
    have hyl_nin : yl ∉ rest := (List.nodup_cons.mp hnd).1
    simp only [drawRows, hram]
    rw [if_pos (hbound yl hmem), ih hrest32 hndr hbr]
    have hfst : ∀ j, (drawBits scr fl (ram (ireg + yl)) xc yc yl (List.range 8)).1 j =
        xor (scr j) (rowTouch ram ireg xc yc yl j) :=
      fun j => drawBits_fst (ram (ireg + yl)) xc yc yl (List.range 8)
        range8_lt (List.nodup_range 8) scr fl j
    have hsnd : (drawBits scr fl (ram (ireg + yl)) xc yc yl (List.range 8)).2 =
        (fl || rowColl ram ireg xc yc yl scr) :=
      drawBits_snd (ram (ireg + yl)) xc yc yl (List.range 8)
        range8_lt (List.nodup_range 8) scr fl
    refine congrArg some (Prod.ext ?_ ?_)
    · funext j
      show xor ((drawBits scr fl (ram (ireg + yl)) xc yc yl (List.range 8)).1 j)
          (rest.any fun y => rowTouch ram ireg xc yc y j) = _
      rw [hfst j]
      by_cases hT : rowTouch ram ireg xc yc yl j = true
      · have hrestF : (rest.any fun y => rowTouch ram ireg xc yc y j) = false := by
          rw [List.any_eq_false]
          intro y hy
          have : rowTouch ram ireg xc yc y j = false :=
            rowTouch_other_row ram ram ireg ireg xc yc (hL yl hmem) (hrest32 y hy)
              (fun hEq => hyl_nin (hEq ▸ hy)) hT
          simp [this]
        simp [List.any_cons, hT, hrestF]
      · simp only [Bool.not_eq_true] at hT
        simp [List.any_cons, hT]
    · show ((drawBits scr fl (ram (ireg + yl)) xc yc yl (List.range 8)).2 ||
          (rest.any fun y => rowColl ram ireg xc yc y
            (drawBits scr fl (ram (ireg + yl)) xc yc yl (List.range 8)).1)) = _
      have hcong : (rest.any fun y => rowColl ram ireg xc yc y
            (drawBits scr fl (ram (ireg + yl)) xc yc yl (List.range 8)).1) =
          rest.any fun y => rowColl ram ireg xc yc y scr := by
        refine any_congr_mem (fun y hy => ?_)
        have hyne : yl ≠ y := fun hEq => hyl_nin (hEq ▸ hy)
        refine any_congr_mem (fun xl _ => ?_)
        have hpoint : (drawBits scr fl (ram (ireg + yl)) xc yc yl (List.range 8)).1
            (pixIdx xc yc xl y) = scr (pixIdx xc yc xl y) := by
          rw [hfst]
          have hz : rowTouch ram ireg xc yc yl (pixIdx xc yc xl y) = false := by
            rw [rowTouch, List.any_eq_false]
            intro a _
            have : pixIdx xc yc a yl ≠ pixIdx xc yc xl y :=
              pixIdx_row_ne xc yc (hL yl hmem) (hrest32 y hy) hyne
            simp [this]
          rw [hz]
          simp
        rw [hpoint]
      rw [hcong, hsnd]
      simp [List.any_cons, Bool.or_assoc]

/-- Reduction of `execute` for the `0xDXYN` draw arm. -/
theorem execute_opD (e : Emu) (op rnd : Nat) (h1 : digit1 op = 0xD) :
    execute e op rnd =
      match drawRows e.ram e.i_reg (e.v_reg (digit2 op)) (e.v_reg (digit3 op)) e.screen false
          (List.range (digit4 op)) with
      | some (scr, flipped) =>
        some { e with screen := scr, v_reg := upd e.v_reg 0xF (if flipped then 1 else 0) }
      | none => none := by
  simp [execute, h1]

/-- Successful execution of a draw opcode `0xDXYN` whose sprite rows all lie
inside RAM, with the explicit resulting screen and flag. -/
theorem execute_draw_some (e : Emu) (op rnd : Nat) (h1 : digit1 op = 0xD)
    (hbound : e.i_reg + digit4 op ≤ RAM_SIZE) :
    execute e op rnd = some { e with
      screen := fun j => xor (e.screen j)
        ((List.range (digit4 op)).any fun yl =>
          rowTouch e.ram e.i_reg (e.v_reg (digit2 op)) (e.v_reg (digit3 op)) yl j),
      v_reg := upd e.v_reg 0xF
        (if ((List.range (digit4 op)).any fun yl =>
            rowColl e.ram e.i_reg (e.v_reg (digit2 op)) (e.v_reg (digit3 op)) yl e.screen)
          then 1 else 0) } := by
  have h32 : ∀ yl ∈ List.range (digit4 op), yl < 32 := by
    intro yl hyl
    have h1' := List.mem_range.mp hyl
    have h2' := digit4_lt op
    omega
  have hbr : ∀ yl ∈ List.range (digit4 op), e.i_reg + yl < RAM_SIZE := by
    intro yl hyl
    have h1' := List.mem_range.mp hyl
    simp only [RAM_SIZE] at hbound ⊢
    omega
  rw [execute_opD e op rnd h1,
    drawRows_eq e.ram e.i_reg (e.v_reg (digit2 op)) (e.v_reg (digit3 op))
      (List.range (digit4 op)) h32 (List.nodup_range _) hbr e.screen false]
  simp

/-- The collision test of a draw, as a bounded existential over rows and
columns of the original screen. -/
theorem anyColl_iff (ram : Nat → Nat) (ireg xc yc n : Nat) (scr : Nat → Bool) :
    ((List.range n).any fun yl => rowColl ram ireg xc yc yl scr) = true ↔
      ∃ row, row < n ∧ ∃ col, col < 8 ∧ sprBit (ram (ireg + row)) col = true ∧
        scr (pixIdx xc yc col row) = true := by
  rw [List.any_eq_true]
  constructor
  · rintro ⟨yl, hyl, hcoll⟩
    simp only [rowColl, List.any_eq_true] at hcoll
    obtain ⟨xl, hxl, hh⟩ := hcoll
    rw [Bool.and_eq_true] at hh
    exact ⟨yl, List.mem_range.mp hyl, xl, List.mem_range.mp hxl, hh.1, hh.2⟩
  · rintro ⟨row, hrow, col, hcol, hbit, hscr⟩
    refine ⟨row, List.mem_range.mpr hrow, ?_⟩
    simp only [rowColl, List.any_eq_true]
    exact ⟨col, List.mem_range.mpr hcol, by simp [hbit, hscr]⟩

/-! ## Claims C6 and C3 -/

/-- Claim C6: for a draw `0xDXYN` whose N sprite rows lie within RAM
(I + N ≤ 4096), every set sprite bit XORs the pixel at column
(register X + bit column) mod 64 and row (register Y + row) mod 32, and the
flag register is 1 iff at least one targeted pixel was already set before
being XORed. -/
theorem c6_draw_wrap_collision (e : Emu) (op rnd x y n : Nat)
    (h1 : digit1 op = 0xD) (h2 : digit2 op = x) (h3 : digit3 op = y) (h4 : digit4 op = n)
    (hbound : e.i_reg + n ≤ RAM_SIZE) :
    ∃ e', execute e op rnd = some e' ∧
      (∀ row col, row < n → col < 8 → sprBit (e.ram (e.i_reg + row)) col = true →
        e'.screen (pixIdx (e.v_reg x) (e.v_reg y) col row) =
          !(e.screen (pixIdx (e.v_reg x) (e.v_reg y) col row))) ∧
      (e'.v_reg 15 = 1 ↔ ∃ row, row < n ∧ ∃ col, col < 8 ∧
        sprBit (e.ram (e.i_reg + row)) col = true ∧
        e.screen (pixIdx (e.v_reg x) (e.v_reg y) col row) = true) := by
  subst h2 h3 h4
  refine ⟨_, execute_draw_some e op rnd h1 hbound, ?_, ?_⟩
  · intro row col hrow hcol hbit
    show xor (e.screen (pixIdx (e.v_reg (digit2 op)) (e.v_reg (digit3 op)) col row))
        ((List.range (digit4 op)).any fun yl =>
          rowTouch e.ram e.i_reg (e.v_reg (digit2 op)) (e.v_reg (digit3 op)) yl
            (pixIdx (e.v_reg (digit2 op)) (e.v_reg (digit3 op)) col row)) = _
    have hT : ((List.range (digit4 op)).any fun yl =>
        rowTouch e.ram e.i_reg (e.v_reg (digit2 op)) (e.v_reg (digit3 op)) yl
          (pixIdx (e.v_reg (digit2 op)) (e.v_reg (digit3 op)) col row)) = true := by
      rw [List.any_eq_true]
      refine ⟨row, List.mem_range.mpr hrow, ?_⟩
      rw [rowTouch, List.any_eq_true]
      exact ⟨col, List.mem_range.mpr hcol, by simp [hbit]⟩
    rw [hT]
    simp
  · show (upd e.v_reg 0xF (if ((List.range (digit4 op)).any fun yl =>
        rowColl e.ram e.i_reg (e.v_reg (digit2 op)) (e.v_reg (digit3 op)) yl e.screen)
        then 1 else 0)) 15 = 1 ↔ _
    have hupd : (upd e.v_reg 0xF (if ((List.range (digit4 op)).any fun yl =>
        rowColl e.ram e.i_reg (e.v_reg (digit2 op)) (e.v_reg (digit3 op)) yl e.screen)
        then 1 else 0)) 15 = (if ((List.range (digit4 op)).any fun yl =>
        rowColl e.ram e.i_reg (e.v_reg (digit2 op)) (e.v_reg (digit3 op)) yl e.screen)
        then 1 else 0) := by
      simp [upd]
    rw [hupd]
    rw [← anyColl_iff e.ram e.i_reg (e.v_reg (digit2 op)) (e.v_reg (digit3 op))
      (digit4 op) e.screen]
    by_cases hC : ((List.range (digit4 op)).any fun yl =>
        rowColl e.ram e.i_reg (e.v_reg (digit2 op)) (e.v_reg (digit3 op)) yl e.screen) = true
    · simp [hC]
    · simp only [Bool.not_eq_true] at hC
      simp [hC]



/-- Concrete draw scenario: sprite byte 0xC0 at I = 0x300, drawn at
(V0, V1) = (63, 0) so one pixel lands on the set pixel 63 (collision) and
one wraps to column 0. -/
def c6emu : Emu :=
  { Emu.new with
    i_reg := 0x300
    ram := fun i => if i = 0x300 then 0xC0 else Emu.new.ram i
    v_reg := fun i => if i = 0 then 63 else 0
    screen := fun j => j == 63 }

/-- Claim C6, witness: the wrapping draw on `c6emu` collides. -/
theorem c6_draw_wrap_collision_witness :
    digit1 0xD011 = 0xD ∧ digit2 0xD011 = 0 ∧ digit3 0xD011 = 1 ∧ digit4 0xD011 = 1 ∧
      c6emu.i_reg + 1 ≤ RAM_SIZE ∧
      (∃ e', execute c6emu 0xD011 0 = some e' ∧
        (∀ row col, row < 1 → col < 8 → sprBit (c6emu.ram (c6emu.i_reg + row)) col = true →
          e'.screen (pixIdx (c6emu.v_reg 0) (c6emu.v_reg 1) col row) =
            !(c6emu.screen (pixIdx (c6emu.v_reg 0) (c6emu.v_reg 1) col row))) ∧
        (e'.v_reg 15 = 1 ↔ ∃ row, row < 1 ∧ ∃ col, col < 8 ∧
          sprBit (c6emu.ram (c6emu.i_reg + row)) col = true ∧
          c6emu.screen (pixIdx (c6emu.v_reg 0) (c6emu.v_reg 1) col row) = true)) :=
  ⟨by decide, by decide, by decide, by decide, by decide,
    c6_draw_wrap_collision c6emu 0xD011 0 0 1 1
      (by decide) (by decide) (by decide) (by decide) (by decide)⟩

/-- Concrete draw scenario: sprite byte 0x80 at I = 0x300 drawn at (0, 0)
onto a blank screen. -/
def c3emu : Emu :=
  { Emu.new with
    i_reg := 0x300
    ram := fun i => if i = 0x300 then 0x80 else Emu.new.ram i }

/-- Claim C3, counterexample: drawing a single set sprite bit onto a blank
screen transitions the target pixel from unset to set, yet the flag register
is 0 — the code sets the flag on set→unset transitions (pixels already set
before the XOR), not on unset→set ones as the claim states. -/
theorem c3_collision_flag_counterexample :
    ∃ e', execute c3emu 0xD011 0 = some e' ∧
      c3emu.screen (pixIdx 0 0 0 0) = false ∧
      sprBit (c3emu.ram c3emu.i_reg) 0 = true ∧
      e'.screen (pixIdx 0 0 0 0) = true ∧
      e'.v_reg 15 = 0 :=
  ⟨_, rfl, rfl, rfl, rfl, rfl⟩

/-- Claim C3, amended: the flag register is set to 1 if at least one
destination pixel was SET before being XORed (a set→unset transition, the
collision), and to 0 otherwise. -/
theorem c3_collision_flag_amended (e : Emu) (op rnd x y n : Nat)
    (h1 : digit1 op = 0xD) (h2 : digit2 op = x) (h3 : digit3 op = y) (h4 : digit4 op = n)
    (hbound : e.i_reg + n ≤ RAM_SIZE) :
    ∃ e', execute e op rnd = some e' ∧
      ((∃ row, row < n ∧ ∃ col, col < 8 ∧ sprBit (e.ram (e.i_reg + row)) col = true ∧
          e.screen (pixIdx (e.v_reg x) (e.v_reg y) col row) = true) → e'.v_reg 15 = 1) ∧
      ((¬∃ row, row < n ∧ ∃ col, col < 8 ∧ sprBit (e.ram (e.i_reg + row)) col = true ∧
          e.screen (pixIdx (e.v_reg x) (e.v_reg y) col row) = true) → e'.v_reg 15 = 0) := by
  subst h2 h3 h4
  refine ⟨_, execute_draw_some e op rnd h1 hbound, ?_, ?_⟩
  · intro hex
    have hC : ((List.range (digit4 op)).any fun yl =>
        rowColl e.ram e.i_reg (e.v_reg (digit2 op)) (e.v_reg (digit3 op)) yl e.screen)
        = true :=
      (anyColl_iff e.ram e.i_reg (e.v_reg (digit2 op)) (e.v_reg (digit3 op))
        (digit4 op) e.screen).mpr hex
    show (upd e.v_reg 0xF _) 15 = 1
    simp [upd, hC]
  · intro hnex
    have hC : ((List.range (digit4 op)).any fun yl =>
        rowColl e.ram e.i_reg (e.v_reg (digit2 op)) (e.v_reg (digit3 op)) yl e.screen)
        = false := by
      rw [← Bool.not_eq_true]
      exact fun hc => hnex ((anyColl_iff e.ram e.i_reg (e.v_reg (digit2 op))
        (e.v_reg (digit3 op)) (digit4 op) e.screen).mp hc)
    show (upd e.v_reg 0xF _) 15 = 0
    simp [upd, hC]

/-- Claim C3 amended, witness: the blank-screen draw has no collision and
yields flag 0. -/
theorem c3_collision_flag_amended_witness :
    digit1 0xD011 = 0xD ∧ digit2 0xD011 = 0 ∧ digit3 0xD011 = 1 ∧ digit4 0xD011 = 1 ∧
      c3emu.i_reg + 1 ≤ RAM_SIZE ∧
      (∃ e', execute c3emu 0xD011 0 = some e' ∧
        ((∃ row, row < 1 ∧ ∃ col, col < 8 ∧ sprBit (c3emu.ram (c3emu.i_reg + row)) col = true ∧
            c3emu.screen (pixIdx (c3emu.v_reg 0) (c3emu.v_reg 1) col row) = true) →
          e'.v_reg 15 = 1) ∧
        ((¬∃ row, row < 1 ∧ ∃ col, col < 8 ∧ sprBit (c3emu.ram (c3emu.i_reg + row)) col = true ∧
            c3emu.screen (pixIdx (c3emu.v_reg 0) (c3emu.v_reg 1) col row) = true) →
          e'.v_reg 15 = 0)) :=
  ⟨by decide, by decide, by decide, by decide, by decide,
    c3_collision_flag_amended c3emu 0xD011 0 0 1 1
      (by decide) (by decide) (by decide) (by decide) (by decide)⟩


end Chip8
